import Mathlib

/-!
Shallow embedding of the PlanGenie webhook backend (telecom plan suggestion
service) and proofs about its query-understanding / plan-filtering pipeline.

Sources embedded here:
- `src/utils/textParser.js` (parseValidity, parseDataAllowance,
  correctOperatorName, extractDurationFromQuery)
- `src/services/planService.js` (flattenPrepaidPlans, flattenPostpaidPlans,
  getPlansForOperator, filterVoiceOnlyPlans, filterByDailyData,
  filterPlansByConstraints, filterInternationalPlans, findSimilarPlans)
- `src/config/constants.js` (OPERATOR_CORRECTIONS, MONTH_MAPPINGS,
  CONVERSATIONAL_RESPONSES)
- the stage wiring of the `/webhook` handler in `src/index.js`
  (conversational short-circuit, voice-only stage, international stage).

Modelling conventions:
- JavaScript strings are `List Char`; `.toLowerCase()` is a `Char.toLower`
  map, `.includes(pat)` is substring containment (`strContains`).
- JavaScript numbers are `Rat` (every numeric literal and every arithmetic
  operation appearing in the embedded code is exact on the rationals; NaN is
  represented by `none` in an `Option`, and the one place Infinity can arise,
  `parseDataAllowance`, gets its own sum type).  Rational arithmetic is done
  through `mkRat`/`Rat.divInt` helpers so that every definition evaluates by
  kernel reduction on concrete inputs.
- Dynamically typed plan-record fields are a `JSVal`; a JS `TypeError`
  (calling a string method on a non-string) is an `Except TypeErr` result.
- Code that throws (`PlanNotFoundError` in `getPlansForOperator`) returns
  `Except PlanErr`.
-/

namespace PlanGenie

/-- Character-list representation of a JavaScript string. -/
abbrev Str := List Char

/-- JS `String.prototype.toLowerCase` (ASCII-relevant part). -/
def lower (s : Str) : Str := s.map Char.toLower

/-- JS `String.prototype.includes`: does `pat` occur as a contiguous
substring of `s`?  (`strContains s []` is `true`, as in JS.) -/
def strContains (s pat : Str) : Bool :=
  if pat.isPrefixOf s then true
  else
    match s with
    | [] => false
    | _ :: t => strContains t pat

/-- JS `String.prototype.trim`: strip whitespace from both ends. -/
def trim (s : Str) : Str :=
  ((s.dropWhile Char.isWhitespace).reverse.dropWhile Char.isWhitespace).reverse

/-- Numeric value of a (non-empty) digit string, as read left to right. -/
def digitsVal (s : Str) : Nat :=
  s.foldl (fun a c => a * 10 + (c.toNat - '0'.toNat)) 0

/-- Decimal rendering of a natural number (JS number-to-string for naturals). -/
def natToText (n : Nat) : Str := Nat.toDigits 10 n

/-- Decimal rendering of an integer. -/
def intToText (i : Int) : Str :=
  if i < 0 then '-' :: natToText i.natAbs else natToText i.natAbs

/-- Dynamically typed JavaScript value, as found in catalog plan records.
JSON-derived records carry only these shapes (plus missing fields, `undef`). -/
inductive JSVal where
  | undef
  | null
  | bool (b : Bool)
  | num (q : Rat)
  | str (s : Str)
deriving DecidableEq

/-- JS truthiness of a `JSVal` (NaN cannot occur in JSON-derived fields). -/
def JSVal.truthy : JSVal → Bool
  | .undef => false
  | .null => false
  | .bool b => b
  | .num q => decide (q ≠ 0)
  | .str s => !s.isEmpty

/-- JS string conversion (`toString` / template coercion).  Number rendering
is exact for integers; non-integral rationals (which no claim exercises and
no catalog field holds) are rendered as `num/den`, an approximation of JS
float printing. -/
def jvToString : JSVal → Str
  | .undef => "undefined".toList
  | .null => "null".toList
  | .bool true => "true".toList
  | .bool false => "false".toList
  | .num q =>
    if q.den = 1 then intToText q.num
    else intToText q.num ++ '/' :: natToText q.den
  | .str s => s

/-- Parse the decimal body of a JS numeric literal: `digits`, `digits.digits`,
`.digits` or `digits.` — the whole input must be consumed.  Returns the exact
rational value. -/
def parseDecimalBody (s : Str) : Option Rat :=
  let intPart := s.takeWhile Char.isDigit
  let rest := s.dropWhile Char.isDigit
  match rest with
  | [] => if intPart.isEmpty then none else some ((digitsVal intPart : Nat) : Rat)
  | '.' :: frac =>
    let fracPart := frac.takeWhile Char.isDigit
    let rest2 := frac.dropWhile Char.isDigit
    if rest2.isEmpty = false then none
    else if intPart.isEmpty && fracPart.isEmpty then none
    else
      some (mkRat ((digitsVal intPart * 10 ^ fracPart.length + digitsVal fracPart : Nat) : Int)
        (10 ^ fracPart.length))
  | _ => none

/-- JS `ToNumber` coercion of a `JSVal`, with `none` standing for NaN.
String conversion handles sign and decimal literals (the exponent and hex
forms, which nothing in the repository feeds to a numeric coercion, are out
of scope and yield NaN here). -/
def jvToNumber : JSVal → Option Rat
  | .undef => none
  | .null => some 0
  | .bool true => some 1
  | .bool false => some 0
  | .num q => some q
  | .str s =>
    let t := trim s
    match t with
    | [] => some 0
    | '-' :: r => (parseDecimalBody r).map (fun q => mkRat (-(q.num)) q.den)
    | '+' :: r => parseDecimalBody r
    | _ => parseDecimalBody t

/-- Leftmost match of the regex `/(\d+)/`: the value of the first maximal
digit run of `s`, if any. -/
def firstNumber : Str → Option Nat
  | [] => none
  | c :: rest =>
    if c.isDigit then some (digitsVal ((c :: rest).takeWhile Char.isDigit))
    else firstNumber rest

/-- Leftmost match of `/(\d+)\s*days?/i` on an (already lower-cased) string:
the value of the first digit run that is followed, after optional whitespace,
by `day`.  On failure the scan steps one character (positions inside the
same digit run see the same run suffix and fail identically, so this agrees
with the regex engine, which can succeed only at the start of a run). -/
def findDayNumber : Str → Option Nat
  | [] => none
  | c :: rest =>
    if c.isDigit then
      let run := c :: rest.takeWhile Char.isDigit
      let afterRun := rest.dropWhile Char.isDigit
      if ("day".toList).isPrefixOf (afterRun.dropWhile Char.isWhitespace) then
        some (digitsVal run)
      else findDayNumber rest
    else findDayNumber rest

/-- A parsed data amount: a finite number of GB, or Infinity (`unlimited`). -/
inductive DataAmt where
  | fin (q : Rat)
  | inf
deriving DecidableEq

/-- Leftmost match of `/(\d+(\.\d+)?)\s*GB/i` on an (already lower-cased)
string: the first decimal number followed, after optional whitespace, by
`gb`.  As with `findDayNumber`, the one-character failure step agrees with
the regex engine (a successful regex match must start at the head of a
digit run, and all positions inside a run share the post-run suffix). -/
def findGBAmount : Str → Option Rat
  | [] => none
  | c :: rest =>
    if c.isDigit then
      let intRun := c :: rest.takeWhile Char.isDigit
      let afterInt := rest.dropWhile Char.isDigit
      let fracDigits :=
        match afterInt with
        | '.' :: f => f.takeWhile Char.isDigit
        | _ => []
      let afterNum :=
        if fracDigits.isEmpty then afterInt
        else (afterInt.tail).dropWhile Char.isDigit
      if ("gb".toList).isPrefixOf (afterNum.dropWhile Char.isWhitespace) then
        some (mkRat ((digitsVal intRun * 10 ^ fracDigits.length + digitsVal fracDigits : Nat) : Int)
          (10 ^ fracDigits.length))
      else findGBAmount rest
    else findGBAmount rest

/-- Leftmost match of `/(\d+)\s*MB/i` on an (already lower-cased) string. -/
def findMBAmount : Str → Option Nat
  | [] => none
  | c :: rest =>
    if c.isDigit then
      let run := c :: rest.takeWhile Char.isDigit
      let afterRun := rest.dropWhile Char.isDigit
      if ("mb".toList).isPrefixOf (afterRun.dropWhile Char.isWhitespace) then
        some (digitsVal run)
      else findMBAmount rest
    else findMBAmount rest

/-- Embeds `parseValidity` of `src/utils/textParser.js`: convert a plan's
`validity` field to a number of days (`none` = JS `null`).  Numbers are
returned as-is; falsy values and the literals `base plan` / `plan validity`
/ `bill cycle` give `null`; month/week/year strings scale the first number
by 30/7/365; `N days` strings and bare numbers give `N`. -/
def parseValidity (validity : JSVal) : Option Rat :=
  match validity with
  | .num q => some q
  | v =>
    if v.truthy then
      let str := lower (jvToString v)
      if str = "base plan".toList ∨ str = "plan validity".toList ∨ str = "bill cycle".toList then
        none
      else if strContains str "month".toList then
        (firstNumber str).map (fun n => ((n * 30 : Nat) : Rat))
      else if strContains str "week".toList then
        (firstNumber str).map (fun n => ((n * 7 : Nat) : Rat))
      else if strContains str "year".toList then
        (firstNumber str).map (fun n => ((n * 365 : Nat) : Rat))
      else if strContains str "day".toList then
        (findDayNumber str).map (fun n => ((n : Nat) : Rat))
      else
        (firstNumber str).map (fun n => ((n : Nat) : Rat))
    else none

/-- A JS `TypeError` raised by calling a string method on a non-string. -/
inductive TypeErr where
  | typeError
deriving DecidableEq

/-- Decidable equality for `Except` results (used to state and evaluate
facts about the stages that can throw). -/
instance {ε α : Type} [DecidableEq ε] [DecidableEq α] : DecidableEq (Except ε α)
  | .ok a, .ok b =>
    if h : a = b then .isTrue (by rw [h]) else .isFalse (by simp [h])
  | .ok _, .error _ => .isFalse (by simp)
  | .error _, .ok _ => .isFalse (by simp)
  | .error e, .error f =>
    if h : e = f then .isTrue (by rw [h]) else .isFalse (by simp [h])

/-- Embeds `parseDataAllowance` of `src/utils/textParser.js`: parse a plan's
`data` field to GB.  Falsy input gives `null`; the code then calls
`dataString.toLowerCase()`, which throws a `TypeError` whenever the (truthy)
field is not a string; `unlimited` gives Infinity; otherwise the GB / MB
regexes are tried (MB divides by 1024). -/
def parseDataAllowance (dataString : JSVal) : Except TypeErr (Option DataAmt) :=
  if dataString.truthy then
    match dataString with
    | .str s =>
      let l := lower s
      if strContains l "unlimited".toList then .ok (some .inf)
      else
        match findGBAmount l with
        | some q => .ok (some (.fin q))
        | none =>
          match findMBAmount l with
          | some n => .ok (some (.fin (mkRat (n : Int) 1024)))
          | none => .ok none
    | _ => .error .typeError
  else .ok none

/-- The `CONFIG.OPERATOR_CORRECTIONS` map of `src/config/constants.js`,
in insertion order. -/
def OPERATOR_CORRECTIONS : List (Str × Str) :=
  [("geo".toList, "jio".toList),
   ("artel".toList, "airtel".toList),
   ("vodafone idea".toList, "vi".toList),
   ("vodaphone".toList, "vi".toList),
   ("idea".toList, "vi".toList)]

/-- First-match association-list lookup (JS object property access on the
string-keyed literal objects embedded here, whose keys are distinct). -/
def lookupAssoc {α : Type} : List (Str × α) → Str → Option α
  | [], _ => none
  | (k, v) :: t, key => if key = k then some v else lookupAssoc t key

/-- Embeds `correctOperatorName` of `src/utils/textParser.js`: falsy input
gives `null`; otherwise the lower-cased input is looked up in
`OPERATOR_CORRECTIONS`, and failing that scanned for operator-name
substrings, jio/geo first, then airtel/artel, then vi/vodafone/idea. -/
def correctOperatorName (input : Option Str) : Option Str :=
  match input with
  | none => none
  | some s =>
    if s.isEmpty then none
    else
      let lowerInput := lower s
      match lookupAssoc OPERATOR_CORRECTIONS lowerInput with
      | some v => some v
      | none =>
        if strContains lowerInput "jio".toList || strContains lowerInput "geo".toList then
          some ("jio".toList)
        else if strContains lowerInput "airtel".toList || strContains lowerInput "artel".toList then
          some ("airtel".toList)
        else if strContains lowerInput "vi".toList || strContains lowerInput "vodafone".toList
            || strContains lowerInput "idea".toList then
          some ("vi".toList)
        else none

/-- The `CONFIG.MONTH_MAPPINGS` table of `src/config/constants.js`, in
insertion order. -/
def MONTH_MAPPINGS : List (Str × Nat) :=
  [("1 month".toList, 28),
   ("one month".toList, 28),
   ("a month".toList, 28),
   ("2 month".toList, 56),
   ("two month".toList, 56),
   ("2 months".toList, 56),
   ("two months".toList, 56),
   ("3 month".toList, 84),
   ("three month".toList, 84),
   ("3 months".toList, 84),
   ("three months".toList, 84)]

/-- Embeds `extractDurationFromQuery` of `src/utils/textParser.js`: the first
`MONTH_MAPPINGS` key (in insertion order) contained in the query text wins;
otherwise the `/(\d+)\s*days?/i` pattern is tried.  (All mapped values are
truthy, so a month match always suppresses the day pattern, as in the
source's `if (!targetDuration)` guard.) -/
def extractDurationFromQuery (queryText : Str) : Option Rat :=
  match (MONTH_MAPPINGS.find? (fun e => strContains queryText e.1)).map (·.2) with
  | some days => some ((days : Nat) : Rat)
  | none => (findDayNumber queryText).map (fun n => ((n : Nat) : Rat))

/-- A catalog plan record.  Fields are dynamically typed; an absent field is
`.undef`. -/
structure Plan where
  name : JSVal := .undef
  price : JSVal := .undef
  data : JSVal := .undef
  validity : JSVal := .undef
  benefits : JSVal := .undef
  additional_benefits : JSVal := .undef
  description : JSVal := .undef
  provider : JSVal := .undef
deriving DecidableEq

/-- Evaluation of `v?.toLowerCase().includes(pat)`: nullish `v` short-circuits
to `undefined` (falsy); a string runs the check; any other value throws,
because `?.` guards only against nullish values, not against non-strings. -/
def optChainLowerIncludes (v : JSVal) (pat : Str) : Except TypeErr Bool :=
  match v with
  | .undef => .ok false
  | .null => .ok false
  | .str s => .ok (strContains (lower s) pat)
  | _ => .error .typeError

/-- The `hasZeroData` test of `filterVoiceOnlyPlans`: `plan.data === "0GB" ||
plan.data === "No data" || plan.data?.toLowerCase().includes('0gb')`. -/
def hasZeroDataCheck (d : JSVal) : Except TypeErr Bool :=
  if d = .str "0GB".toList || d = .str "No data".toList then .ok true
  else optChainLowerIncludes d "0gb".toList

/-- The `onlyVoiceAndSMS` test of `filterVoiceOnlyPlans`: `plan.benefits`
must be truthy, and its lower-cased text must exclude `data` and `gb` and
include `voice` or `calls`.  A truthy non-string `benefits` throws. -/
def onlyVoiceAndSMSCheck (b : JSVal) : Except TypeErr Bool :=
  if b.truthy then
    match b with
    | .str s =>
      let l := lower s
      .ok (!strContains l "data".toList && !strContains l "gb".toList &&
        (strContains l "voice".toList || strContains l "calls".toList))
    | _ => .error .typeError
  else .ok false

/-- The per-plan predicate of `filterVoiceOnlyPlans` (both tests are
evaluated, in source order, before the conjunction). -/
def voiceOnlyPred (p : Plan) : Except TypeErr Bool := do
  let hasZeroData ← hasZeroDataCheck p.data
  let onlyVoiceAndSMS ← onlyVoiceAndSMSCheck p.benefits
  return hasZeroData && onlyVoiceAndSMS

/-- Embeds `filterVoiceOnlyPlans` of `src/services/planService.js`; the first
plan to throw aborts the whole filter, as in JS. -/
def filterVoiceOnlyPlans : List Plan → Except TypeErr (List Plan)
  | [] => .ok []
  | p :: ps => do
    let b ← voiceOnlyPred p
    let rest ← filterVoiceOnlyPlans ps
    return if b then p :: rest else rest

/-- The voice-only stage of the webhook handler (`src/index.js`): when the
voice-only flag is set, filter; if the filtered set is non-empty replace the
plan list with it, otherwise keep the original list. -/
def voiceOnlyStage (isVoiceOnly : Bool) (plans : List Plan) : Except TypeErr (List Plan) :=
  if isVoiceOnly then do
    let voicePlans ← filterVoiceOnlyPlans plans
    if voicePlans.length > 0 then return voicePlans else return plans
  else .ok plans

/-- Exact rational division (denominator nonzero at every use site), phrased
through `Rat.divInt` so concrete instances evaluate by kernel reduction. -/
def ratDiv (a b : Rat) : Rat :=
  Rat.divInt (a.num * (b.den : Int)) (b.num * (a.den : Int))

/-- Exact rational subtraction, phrased through `Rat.divInt` (see `ratDiv`). -/
def ratSub (a b : Rat) : Rat :=
  Rat.divInt (a.num * (b.den : Int) - b.num * (a.den : Int)) ((a.den * b.den : Nat) : Int)

/-- Absolute value of a rational, phrased through `mkRat` (see `ratDiv`). -/
def ratAbs (q : Rat) : Rat := mkRat (q.num.natAbs : Int) q.den

/-- JS truthiness of a nullable number (`none` = JS `null`). -/
def numTruthy : Option Rat → Bool
  | none => false
  | some q => decide (q ≠ 0)

/-- The per-plan predicate of `filterByDailyData`: parse the data allowance
(excluding falsy/unparseable amounts), divide by the parsed validity
(falsy validity defaults to 1) and compare against the requested daily
minimum.  An infinite allowance gives an infinite daily rate, which passes
the threshold whenever the validity is positive. -/
def dailyDataPred (minDailyData : Rat) (p : Plan) : Except TypeErr Bool := do
  let dataAmount ← parseDataAllowance p.data
  match dataAmount with
  | none => return false
  | some (.fin q) =>
    if q = 0 then return false
    else
      let validityDays :=
        match parseValidity p.validity with
        | some v => if v = 0 then (1 : Rat) else v
        | none => 1
      return decide (minDailyData ≤ ratDiv q validityDays)
  | some .inf =>
    let validityDays : Rat :=
      match parseValidity p.validity with
      | some v => if v = 0 then (1 : Rat) else v
      | none => 1
    return decide (0 < validityDays)

/-- Embeds `filterByDailyData` of `src/services/planService.js`. -/
def filterByDailyData (plans : List Plan) (minDailyData : Rat) : Except TypeErr (List Plan) :=
  match plans with
  | [] => .ok []
  | p :: ps => do
    let b ← dailyDataPred minDailyData p
    let rest ← filterByDailyData ps minDailyData
    return if b then p :: rest else rest

/-- The `planPrice` of `filterPlansByConstraints`: a string price has every
non-digit stripped and goes through `parseInt` (`none` = NaN on an empty
strip); any other value is used as-is, entering the comparison through JS
numeric coercion. -/
def constraintsPrice (price : JSVal) : Option Rat :=
  match price with
  | .str s =>
    let d := s.filter Char.isDigit
    if d.isEmpty then none else some ((digitsVal d : Nat) : Rat)
  | v => jvToNumber v

/-- JS `x <= b` for a possibly-NaN left operand and a number `b`
(NaN comparisons are false). -/
def jsLeNum (x : Option Rat) (b : Rat) : Bool :=
  match x with
  | none => false
  | some q => decide (q ≤ b)

/-- The per-plan predicate of `filterPlansByConstraints`:
`(!targetDuration || validDays === targetDuration) && (!budget || planPrice <= budget)`. -/
def constraintsPred (targetDuration budget : Option Rat) (p : Plan) : Bool :=
  let validDays := parseValidity p.validity
  let planPrice := constraintsPrice p.price
  let matchesDuration := !numTruthy targetDuration ||
    (match validDays, targetDuration with
     | some v, some t => decide (v = t)
     | _, _ => false)
  let matchesBudget := !numTruthy budget ||
    (match budget with
     | some b => jsLeNum planPrice b
     | none => false)
  matchesDuration && matchesBudget

/-- Embeds `filterPlansByConstraints` of `src/services/planService.js`. -/
def filterPlansByConstraints (plans : List Plan) (targetDuration budget : Option Rat) :
    List Plan :=
  plans.filter (constraintsPred targetDuration budget)

/-- Join a list of strings with single spaces (JS `Array.prototype.join(' ')`). -/
def joinSpace : List Str → Str
  | [] => []
  | [s] => s
  | s :: rest => s ++ ' ' :: joinSpace rest

/-- The searchable text of a plan as built by `filterInternationalPlans`:
the truthy ones among `benefits`, `additional_benefits`, `description`,
`name`, joined with spaces and lower-cased. -/
def planCombinedText (p : Plan) : Str :=
  lower (joinSpace
    (([p.benefits, p.additional_benefits, p.description, p.name].filter JSVal.truthy).map
      jvToString))

/-- The per-plan predicate of `filterInternationalPlans`: the combined text
contains `iro`, `international roaming`, `global roaming` or
`international pack`. -/
def internationalPred (p : Plan) : Bool :=
  let planText := planCombinedText p
  strContains planText "iro".toList || strContains planText "international roaming".toList ||
    strContains planText "global roaming".toList ||
    strContains planText "international pack".toList

/-- Embeds `filterInternationalPlans` of `src/services/planService.js`. -/
def filterInternationalPlans (plans : List Plan) : List Plan :=
  plans.filter internationalPred

/-- The trigger of the webhook's international stage (`src/index.js`): the
query text contains `international` or `roaming`. -/
def isInternationalQuery (queryText : Str) : Bool :=
  strContains (lower queryText) "international".toList ||
    strContains (lower queryText) "roaming".toList

/-- Outcome of the webhook's international stage: either a plan list handed
to the rest of the pipeline, or the dedicated "no international roaming
plans found" short-circuit response. -/
inductive IntlStageResult where
  | proceed (plans : List Plan)
  | noIntlResponse
deriving DecidableEq

/-- The international stage of the webhook handler (`src/index.js`): when
triggered, replace the working set with the international plans and
short-circuit if that leaves nothing. -/
def internationalStage (queryText : Str) (filtered : List Plan) : IntlStageResult :=
  if isInternationalQuery queryText then
    let internationalPlans := filterInternationalPlans filtered
    if internationalPlans.length = 0 then .noIntlResponse
    else .proceed internationalPlans
  else .proceed filtered

/-- Sort key of `findSimilarPlans`: `Math.abs(item.validDays - targetDuration)`
(the comparator subtraction sorts ascending by this key).  Items reaching the
sort passed the truthiness filter, so their `validDays` is a number. -/
def similarKey (targetDuration : Rat) (item : Plan × Option Rat) : Rat :=
  ratAbs (ratSub (item.2.getD 0) targetDuration)

/-- The pre-sort pipeline of `findSimilarPlans`: pair each plan with its
parsed validity, keep truthy validities, and keep plans within budget when
the budget is truthy (raw `item.plan.price <= budget` JS comparison, going
through numeric coercion of the price). -/
def similarCandidates (plans : List Plan) (budget : Option Rat) : List (Plan × Option Rat) :=
  ((plans.map (fun p => (p, parseValidity p.validity))).filter
    (fun item => numTruthy item.2)).filter
    (fun item => !numTruthy budget || jsLeNum (jvToNumber item.1.price) (budget.getD 0))

/-- The sorted stage of `findSimilarPlans`.  ECMAScript `Array.prototype.sort`
with a consistent comparator returns the unique stable sorted permutation of
its input, which is exactly what `List.insertionSort` computes for the
comparator's total preorder (ascending distance to the target duration). -/
def similarSorted (plans : List Plan) (targetDuration : Rat) (budget : Option Rat) :
    List (Plan × Option Rat) :=
  List.insertionSort
    (fun a b => similarKey targetDuration a ≤ similarKey targetDuration b)
    (similarCandidates plans budget)

/-- Embeds `findSimilarPlans` of `src/services/planService.js`: the sorted
candidates, cut to the first `maxResults` (`slice(0, maxResults)`) and
unwrapped back to plans. -/
def findSimilarPlans (plans : List Plan) (targetDuration : Rat) (budget : Option Rat)
    (maxResults : Nat := 3) : List Plan :=
  ((similarSorted plans targetDuration budget).take maxResults).map (·.1)

/-- Trigger keys of `CONFIG.CONVERSATIONAL_RESPONSES` in insertion order;
the canned reply texts attached to each key play no role in the control flow
modelled here. -/
def CONVERSATIONAL_TRIGGERS : List Str :=
  ["hi".toList, "hello".toList, "hey".toList, "how are you".toList,
   "thanks".toList, "thank you".toList, "bye".toList]

/-- How the webhook handler routes a request: a conversational short-circuit
(returning one of the matched trigger's canned responses and touching no
other stage), or the plan pipeline. -/
inductive WebhookRoute where
  | conversational (trigger : Str)
  | pipeline
deriving DecidableEq

/-- The conversational gate at the top of the webhook handler
(`src/index.js`): the first trigger contained in the normalized (lower-cased,
trimmed) query text short-circuits the request. -/
def webhookRoute (queryText : Str) : WebhookRoute :=
  let normalizedQuery := trim (lower queryText)
  match CONVERSATIONAL_TRIGGERS.find? (fun t => strContains normalizedQuery t) with
  | some t => .conversational t
  | none => .pipeline

/-- A node of the raw nested catalog structure below one plan type: an array
of plan records, an object of named sub-structures, or any other JSON value
(which the flatteners skip). -/
inductive PNode where
  | arr (plans : List Plan)
  | obj (fields : List (Str × PNode))
  | leafOther

/-- Embeds `flattenPrepaidPlans` of `src/services/planService.js`: collect
the array-valued entries of the mapping, descending exactly one extra level
into object-valued entries. -/
def flattenPrepaidPlans (prepaidData : List (Str × PNode)) : List Plan :=
  prepaidData.flatMap (fun cat =>
    match cat.2 with
    | .arr ps => ps
    | .obj sub =>
      sub.flatMap (fun subCat =>
        match subCat.2 with
        | .arr ps => ps
        | _ => [])
    | .leafOther => [])

/-- Embeds `flattenPostpaidPlans` of `src/services/planService.js`: an array
is returned verbatim; an object is flattened up to three levels deep. -/
def flattenPostpaidPlans : PNode → List Plan
  | .arr ps => ps
  | .obj fields =>
    fields.flatMap (fun cat =>
      match cat.2 with
      | .arr ps => ps
      | .obj sub =>
        sub.flatMap (fun subCat =>
          match subCat.2 with
          | .arr ps => ps
          | .obj sub2 =>
            sub2.flatMap (fun third =>
              match third.2 with
              | .arr ps => ps
              | _ => [])
          | .leafOther => [])
      | .leafOther => [])
  | .leafOther => []

/-- A catalog entry for one operator (`data.telecom_providers[op]`); `plans`
maps plan-type keys to raw nested structures and may be absent. -/
structure Provider where
  plans : Option (List (Str × PNode))

/-- The fetched catalog (`data` in `getPlansForOperator`). -/
structure Catalog where
  telecom_providers : List (Str × Provider)

/-- The `PlanNotFoundError` of `src/utils/errors.js` as thrown by
`getPlansForOperator`; the human-readable message carried by the error does
not influence control flow and is elided. -/
inductive PlanErr where
  | planNotFound
deriving DecidableEq

/-- The provider stamp applied during normalization
(`plans.map(p => ({ ...p, provider: operator }))`). -/
def addProvider (operator : Str) (p : Plan) : Plan :=
  { p with provider := .str operator }

/-- Normalization of the raw node found under one plan type: postpaid arrays
are taken verbatim and postpaid objects flattened; prepaid structures go
through `flattenPrepaidPlans` (whose `Object.values` walk discovers no plan
arrays inside an array of plan records or a primitive). -/
def plansForNode (planType : Str) (node : PNode) : List Plan :=
  if planType = "postpaid".toList then
    match node with
    | .arr ps => ps
    | .obj _ => flattenPostpaidPlans node
    | .leafOther => []
  else
    match node with
    | .obj fields => flattenPrepaidPlans fields
    | _ => []

/-- Embeds `getPlansForOperator` of `src/services/planService.js`: with an
operator, a missing provider, missing `plans` object or missing plan type
throws `PlanNotFoundError`; without one, all providers are searched and
missing entries contribute nothing.  An empty final list also throws.  The
per-plan `price`/`data` validation pass only logs warnings and never drops
a plan. -/
def getPlansForOperator (data : Catalog) (operator : Option Str) (planType : Str) :
    Except PlanErr (List Plan) :=
  let plans : Except PlanErr (List Plan) :=
    match operator with
    | some op =>
      match lookupAssoc data.telecom_providers op with
      | none => .error .planNotFound
      | some provider =>
        match provider.plans with
        | none => .error .planNotFound
        | some planMap =>
          match lookupAssoc planMap planType with
          | none => .error .planNotFound
          | some node => .ok ((plansForNode planType node).map (addProvider op))
    | none =>
      .ok (data.telecom_providers.flatMap (fun entry =>
        match entry.2.plans with
        | some planMap =>
          match lookupAssoc planMap planType with
          | some node => (plansForNode planType node).map (addProvider entry.1)
          | none => []
        | none => []))
  match plans with
  | .error e => .error e
  | .ok ps => if ps.isEmpty then .error .planNotFound else .ok ps

/-- The space-separated words of a query text (used to state that a
conversational trigger match need not be a standalone word). -/
def wordsOf (s : Str) : List Str := s.splitOn ' '

/-- The duration+budget predicate exactly as the specification words it
(§8): the target duration is null or the parsed validity equals it, and the
budget is null or the stripped numeric price is at most the budget.  Kept
separate from `constraintsPred`, which embeds the code. -/
def specConstraintPred (targetDuration budget : Option Rat) (p : Plan) : Prop :=
  (targetDuration = none ∨ parseValidity p.validity = targetDuration) ∧
  (budget = none ∨ jsLeNum (constraintsPrice p.price) (budget.getD 0) = true)

/-! Concrete fixtures used by witnesses and counterexamples. -/

/-- A ₹399, 28-day plan with daily data. -/
def planA : Plan :=
  { price := .num 399, data := .str ("2GB/day".toList),
    validity := .str ("28 days".toList), benefits := .str ("Unlimited calls".toList) }

/-- A ₹699, 28-day plan. -/
def planB : Plan :=
  { price := .num 699, data := .str ("3GB/day".toList), validity := .num 28 }

/-- A zero-data voice/SMS plan matching the strict voice-only predicate. -/
def planVoice : Plan :=
  { price := .num 99, data := .str ("0GB".toList),
    benefits := .str ("Unlimited voice and SMS".toList) }

/-- A malformed record whose `data` field is the number 5 (the claim's
"numeric data field"). -/
def planNumericData : Plan :=
  { price := .num 50, data := .num 5, benefits := .str ("Unlimited voice calls".toList) }

/-- A record with no `price` field at all. -/
def planNoPrice : Plan :=
  { data := .str ("1GB".toList), validity := .num 28 }

/-- A ₹500, 84-day plan. -/
def plan84 : Plan :=
  { price := .num 500, data := .str ("1GB".toList), validity := .num 84 }

/-- A plan whose benefits advertise an IRO (international roaming) pack. -/
def planIRO : Plan :=
  { price := .num 2999, benefits := .str ("IRO pack included".toList) }

/-- A plan advertising international call minutes (but no roaming). -/
def planIntlCall : Plan :=
  { benefits := .str ("free international call minutes".toList) }

/-- The prepaid node of the example catalog: one category holding `planA`
and the price-less `planNoPrice`. -/
def exNode : PNode := .obj [("popular".toList, .arr [planA, planNoPrice])]

/-- An example catalog with a single operator `jio` carrying only prepaid
plans. -/
def exCatalog : Catalog :=
  { telecom_providers := [("jio".toList, { plans := some [("prepaid".toList, exNode)] })] }

/-! Claim theorems. -/

/-- C1 fails as stated: with target duration 0 — a JS-falsy number, which
`filterPlansByConstraints` treats exactly like null — a plan whose parsed
validity is 5 still appears in the output, although the claim's predicate
(which exempts only a *null* target duration) says it must not. -/
theorem C1_counterexample :
    planNoPrice ∈ filterPlansByConstraints [planNoPrice] (some 0) none ∧
    ¬ specConstraintPred (some 0) none planNoPrice := by
  constructor
  · decide
  · unfold specConstraintPred
    decide

/-- C5: the spec's totality requirement ("no stage may throw for a plan with
unexpected or missing fields ... e.g. a numeric or absent data field") is
violated by the code: `plan.data?.toLowerCase()` in `filterVoiceOnlyPlans`
and `dataString.toLowerCase()` in `parseDataAllowance` (reached from
`filterByDailyData`) throw a `TypeError` when `data` is a number, because
the optional chain and the truthiness guard only filter out nullish/falsy
values, not non-strings. -/
theorem C5_numeric_data_field_throws :
    filterVoiceOnlyPlans [planNumericData] = Except.error TypeErr.typeError ∧
    filterByDailyData [planNumericData] 2 = Except.error TypeErr.typeError := by
  constructor
  · decide
  · decide

/-- C7: the generic validity parser maps `28 days` to 28 and `1 month` to 30,
while the Signal Extractor's month table maps the query text `1 month` to 28;
the two paths disagree on month expressions. -/
theorem C7_month_paths_differ :
    parseValidity (.str ("28 days".toList)) = some ((28 : Nat) : Rat) ∧
    parseValidity (.str ("1 month".toList)) = some ((30 : Nat) : Rat) ∧
    extractDurationFromQuery ("1 month".toList) = some ((28 : Nat) : Rat) ∧
    parseValidity (.str ("1 month".toList)) ≠ extractDurationFromQuery ("1 month".toList) := by
  refine ⟨by decide, by decide, by decide, by decide⟩

/-- C10: trigger matching is unanchored substring containment, so the
plan-seeking query `which plan is cheapest` — in which `hi` occurs only
inside the word `which` — takes the conversational short-circuit (returning
a canned response for trigger `hi`) instead of the plan pipeline. -/
theorem C10_substring_trigger_hijack :
    webhookRoute ("which plan is cheapest".toList) = .conversational ("hi".toList) ∧
    ("hi".toList) ∉ wordsOf ("which plan is cheapest".toList) := by
  constructor
  · decide
  · decide

/-- C3 fails as stated: when the catalog has no entry for the requested
operator, `getPlansForOperator` raises `PlanNotFoundError` — it does not
return an empty sequence. -/
theorem C3_counterexample :
    getPlansForOperator exCatalog (some ("vi".toList)) ("prepaid".toList) =
      Except.error PlanErr.planNotFound ∧
    getPlansForOperator exCatalog (some ("vi".toList)) ("prepaid".toList) ≠
      Except.ok [] := by
  constructor
  · decide
  · decide

/-- C6 fails as stated: the query `roaming plans` does not contain
`international`, yet the international stage is applied (it filters the
working set down to the IRO plan); moreover a plan advertising
`international call` minutes is *not* passed by the filter, whose keyword
list has `international pack` instead of the claim's `international call`. -/
theorem C6_counterexample :
    internationalStage ("roaming plans".toList) [planA, planIRO] = .proceed [planIRO] ∧
    strContains (lower ("roaming plans".toList)) ("international".toList) = false ∧
    internationalPred planIntlCall = false ∧
    strContains (planCombinedText planIntlCall) ("international call".toList) = true := by
  refine ⟨by decide, by decide, by decide, by decide⟩

/-- C8 fails as stated: `vodaphone` is one of the claim's own supported
misspellings, and appending the noise ` plans` changes the result from `vi`
to null, because the direct-correction key no longer matches and the
partial-match scan has no keyword occurring in `vodaphone`. -/
theorem C8_counterexample :
    correctOperatorName (some ("vodaphone plans".toList)) = none ∧
    correctOperatorName (some ("vodaphone".toList)) = some ("vi".toList) := by
  constructor
  · decide
  · decide

/-- C9 fails as stated: a plan with no `price` field survives normalization —
`getPlansForOperator` returns it (stamped with its provider) with `price`
still absent, because the validation pass only logs a warning. -/
theorem C9_counterexample :
    getPlansForOperator exCatalog (some ("jio".toList)) ("prepaid".toList) =
      Except.ok [addProvider ("jio".toList) planA, addProvider ("jio".toList) planNoPrice] ∧
    (addProvider ("jio".toList) planNoPrice).price = JSVal.undef := by
  constructor
  · decide
  · decide

/-- Reformulation of the code's duration+budget predicate: the duration
clause passes iff the target is nullish (null or zero) or matched exactly,
and the budget clause iff the budget is nullish or the price is within it. -/
theorem constraintsPred_iff (targetDuration budget : Option Rat) (p : Plan) :
    constraintsPred targetDuration budget p = true ↔
      ((numTruthy targetDuration = false ∨ parseValidity p.validity = targetDuration) ∧
       (numTruthy budget = false ∨ jsLeNum (constraintsPrice p.price) (budget.getD 0) = true)) := by
  rcases targetDuration with _ | t <;> rcases budget with _ | b <;>
    rcases hv : parseValidity p.validity with _ | v <;>
      simp [constraintsPred, numTruthy, hv]

/-- C1 (corrected): for every plan of the input list, membership in the
duration+budget filter output is equivalent to the claim's predicate with
"is null" relaxed to "is null or zero" in both clauses — target duration
and budget are JS numbers, and the code's `!targetDuration` / `!budget`
guards treat the number 0 exactly like null. -/
theorem C1_filter_constraints_iff (plans : List Plan) (targetDuration budget : Option Rat)
    (p : Plan) (hp : p ∈ plans) :
    p ∈ filterPlansByConstraints plans targetDuration budget ↔
      ((numTruthy targetDuration = false ∨ parseValidity p.validity = targetDuration) ∧
       (numTruthy budget = false ∨ jsLeNum (constraintsPrice p.price) (budget.getD 0) = true)) := by
  rw [← constraintsPred_iff]
  unfold filterPlansByConstraints
  simp [List.mem_filter, hp]

/-- Witness for C1: the ₹399/28-day plan against target duration 28 and
budget 500. -/
theorem C1_filter_constraints_iff_witness :
    planA ∈ filterPlansByConstraints [planA, planB] (some ((28 : Nat) : Rat))
        (some ((500 : Nat) : Rat)) ↔
      ((numTruthy (some ((28 : Nat) : Rat)) = false ∨
        parseValidity planA.validity = some ((28 : Nat) : Rat)) ∧
       (numTruthy (some ((500 : Nat) : Rat)) = false ∨
        jsLeNum (constraintsPrice planA.price) ((some ((500 : Nat) : Rat)).getD 0) = true)) :=
  C1_filter_constraints_iff [planA, planB] _ _ planA (by decide)

/-- Under pointwise-successful predicate evaluation, `filterVoiceOnlyPlans`
returns exactly the plans whose predicate evaluates to `true`. -/
theorem filterVoiceOnlyPlans_ok (plans : List Plan)
    (h : ∀ p ∈ plans, ∃ b, voiceOnlyPred p = Except.ok b) :
    filterVoiceOnlyPlans plans =
      Except.ok (plans.filter (fun p => decide (voiceOnlyPred p = Except.ok true))) := by
  induction plans with
  | nil => rfl
  | cons p ps ih =>
    obtain ⟨b, hb⟩ := h p (List.mem_cons_self p ps)
    have ih2 := ih (fun q hq => h q (List.mem_cons_of_mem p hq))
    cases b <;>
      simp [filterVoiceOnlyPlans, hb, ih2, List.filter_cons, Bind.bind, Except.bind,
        Pure.pure, Except.pure]

/-- C2: with the voice-only flag set (and the per-plan predicate evaluating
without a TypeError, as it does on string-typed records): if the strict
voice-only predicate matches zero plans, the stage passes the original
unfiltered list on; if it matches at least one plan, exactly the matching
plans are passed on. -/
theorem C2_voice_only_no_empty_override (plans : List Plan)
    (h : ∀ p ∈ plans, ∃ b, voiceOnlyPred p = Except.ok b) :
    ((∀ p ∈ plans, voiceOnlyPred p = Except.ok false) →
      voiceOnlyStage true plans = Except.ok plans) ∧
    ((∃ p ∈ plans, voiceOnlyPred p = Except.ok true) →
      voiceOnlyStage true plans =
        Except.ok (plans.filter (fun p => decide (voiceOnlyPred p = Except.ok true)))) := by
  have hf := filterVoiceOnlyPlans_ok plans h
  constructor
  · intro hall
    have hnil : plans.filter (fun p => decide (voiceOnlyPred p = Except.ok true)) = [] := by
      rw [List.filter_eq_nil_iff]
      intro a ha
      simp [hall a ha]
    simp [voiceOnlyStage, hf, hnil, Bind.bind, Except.bind, Pure.pure, Except.pure]
  · rintro ⟨p, hp, hpt⟩
    have hmem : p ∈ plans.filter (fun p => decide (voiceOnlyPred p = Except.ok true)) :=
      List.mem_filter.mpr ⟨hp, by simp [hpt]⟩
    have hlen : 0 < (plans.filter (fun p => decide (voiceOnlyPred p = Except.ok true))).length :=
      List.length_pos.mpr (List.ne_nil_of_mem hmem)
    simp [voiceOnlyStage, hf, hlen, Bind.bind, Except.bind, Pure.pure, Except.pure]

/-- Witness for C2: one matching voice plan among two, at a concrete input. -/
theorem C2_voice_only_no_empty_override_witness :
    (∃ p ∈ [planA, planVoice], voiceOnlyPred p = Except.ok true) ∧
    voiceOnlyStage true [planA, planVoice] =
      Except.ok ([planA, planVoice].filter (fun p => decide (voiceOnlyPred p = Except.ok true))) :=
  ⟨⟨planVoice, by decide, by decide⟩,
   (C2_voice_only_no_empty_override [planA, planVoice] (by decide)).2
     ⟨planVoice, by decide, by decide⟩⟩

/-- C3 (amended): when the catalog has no entry for the requested operator,
no `plans` object for it, or no entry for the requested plan type, the
plan-retrieval operation raises `PlanNotFoundError` — which the webhook
handler catches and turns into a not-found reply — rather than returning an
empty sequence. -/
theorem C3_missing_entry_raises (data : Catalog) (op planType : Str) :
    (lookupAssoc data.telecom_providers op = none →
      getPlansForOperator data (some op) planType = Except.error PlanErr.planNotFound) ∧
    (∀ provider, lookupAssoc data.telecom_providers op = some provider →
      provider.plans = none →
      getPlansForOperator data (some op) planType = Except.error PlanErr.planNotFound) ∧
    (∀ provider planMap, lookupAssoc data.telecom_providers op = some provider →
      provider.plans = some planMap → lookupAssoc planMap planType = none →
      getPlansForOperator data (some op) planType = Except.error PlanErr.planNotFound) := by
  refine ⟨fun h1 => ?_, fun provider h1 h2 => ?_, fun provider planMap h1 h2 h3 => ?_⟩
  · simp [getPlansForOperator, h1]
  · simp [getPlansForOperator, h1, h2]
  · simp [getPlansForOperator, h1, h2, h3]

/-- Witness for C3: the example catalog has no `vi` entry, so a `vi`
postpaid request raises. -/
theorem C3_missing_entry_raises_witness :
    getPlansForOperator exCatalog (some ("vi".toList)) ("postpaid".toList) =
      Except.error PlanErr.planNotFound :=
  (C3_missing_entry_raises exCatalog ("vi".toList) ("postpaid".toList)).1 rfl

/-- C9 (amended): normalization drops nothing — whenever the catalog lookup
succeeds and the flattened node is non-empty, `getPlansForOperator` returns
*every* flattened plan stamped with its provider, including records with a
missing `price` or `data` (the validation pass only logs them as suspect). -/
theorem C9_missing_fields_not_dropped (data : Catalog) (op planType : Str)
    (provider : Provider) (planMap : List (Str × PNode)) (node : PNode)
    (h1 : lookupAssoc data.telecom_providers op = some provider)
    (h2 : provider.plans = some planMap)
    (h3 : lookupAssoc planMap planType = some node)
    (h4 : plansForNode planType node ≠ []) :
    getPlansForOperator data (some op) planType =
      Except.ok ((plansForNode planType node).map (addProvider op)) := by
  simp [getPlansForOperator, h1, h2, h3, h4]

/-- Witness for C9: the example catalog's prepaid node, which contains a
price-less record, is returned whole. -/
theorem C9_missing_fields_not_dropped_witness :
    getPlansForOperator exCatalog (some ("jio".toList)) ("prepaid".toList) =
      Except.ok ((plansForNode ("prepaid".toList) exNode).map (addProvider ("jio".toList))) :=
  C9_missing_fields_not_dropped exCatalog ("jio".toList) ("prepaid".toList) _ _ exNode
    rfl rfl rfl (by decide)

/-- C6 (amended): the international stage is applied exactly when the query
text contains `international` *or* `roaming`; an untriggered stage passes
the working set through unchanged; and a plan passes the filter iff the
combination of its benefits, additional benefits, description and name
contains (case-insensitively) `iro`, `international roaming`,
`global roaming` or `international pack` — the code has `international
pack`, not the claim's `international call`. -/
theorem C6_international_stage_spec (queryText : Str) (plans : List Plan) :
    (isInternationalQuery queryText =
      (strContains (lower queryText) ("international".toList) ||
       strContains (lower queryText) ("roaming".toList))) ∧
    (isInternationalQuery queryText = false →
      internationalStage queryText plans = .proceed plans) ∧
    (∀ p, p ∈ filterInternationalPlans plans ↔ p ∈ plans ∧
      (strContains (planCombinedText p) ("iro".toList) = true ∨
       strContains (planCombinedText p) ("international roaming".toList) = true ∨
       strContains (planCombinedText p) ("global roaming".toList) = true ∨
       strContains (planCombinedText p) ("international pack".toList) = true)) := by
  refine ⟨rfl, fun h => ?_, fun p => ?_⟩
  · simp [internationalStage, h]
  · simp [filterInternationalPlans, List.mem_filter, internationalPred, Bool.or_eq_true,
      or_assoc]

/-- Witness for C6: an untriggered query passes plans through, and the IRO
plan passes the filter. -/
theorem C6_international_stage_spec_witness :
    internationalStage ("best plans".toList) [planA] = .proceed [planA] ∧
    planIRO ∈ filterInternationalPlans [planA, planIRO] :=
  ⟨(C6_international_stage_spec ("best plans".toList) [planA]).2.1 (by decide),
   ((C6_international_stage_spec ("best plans".toList) [planA, planIRO]).2.2 planIRO).mpr
     ⟨by decide, Or.inl (by decide)⟩⟩

/-- Every candidate pair carries the parsed validity of its own plan. -/
theorem similarCandidates_snd (plans : List Plan) (budget : Option Rat) :
    ∀ item ∈ similarCandidates plans budget, item.2 = parseValidity item.1.validity := by
  intro item h
  have h1 : item ∈ plans.map (fun p => (p, parseValidity p.validity)) :=
    List.mem_of_mem_filter (List.mem_of_mem_filter h)
  obtain ⟨p, _, rfl⟩ := List.mem_map.mp h1
  rfl

/-- C4: the similarity fallback returns at most `maxResults` plans (the
source default is 3); with a (truthy) budget set, no returned plan's price
is above the budget; the output is sorted ascending by the absolute
difference between parsed validity and the target duration; and tied
candidates keep their original catalog order (stability of the sort). -/
theorem C4_find_similar_plans_bounds (plans : List Plan) (targetDuration : Rat)
    (budget : Option Rat) (maxResults : Nat) :
    (findSimilarPlans plans targetDuration budget maxResults).length ≤ maxResults ∧
    (∀ b, budget = some b → b ≠ 0 →
      ∀ p ∈ findSimilarPlans plans targetDuration budget maxResults,
        jsLeNum (jvToNumber p.price) b = true) ∧
    (findSimilarPlans plans targetDuration budget maxResults).Pairwise
      (fun p q => ratAbs (ratSub ((parseValidity p.validity).getD 0) targetDuration) ≤
        ratAbs (ratSub ((parseValidity q.validity).getD 0) targetDuration)) ∧
    (∀ a b, [a, b].Sublist (similarCandidates plans budget) →
      similarKey targetDuration a = similarKey targetDuration b →
      [a, b].Sublist (similarSorted plans targetDuration budget)) := by
  have hperm := List.perm_insertionSort
    (fun a b => similarKey targetDuration a ≤ similarKey targetDuration b)
    (similarCandidates plans budget)
  have hsnd := similarCandidates_snd plans budget
  refine ⟨?_, ?_, ?_, ?_⟩
  · simp [findSimilarPlans, List.length_take]
  · intro b hb hb0 p hp
    obtain ⟨item, hitem, rfl⟩ := List.mem_map.mp hp
    have hsorted : item ∈ similarSorted plans targetDuration budget :=
      List.mem_of_mem_take hitem
    have hcand : item ∈ similarCandidates plans budget := hperm.mem_iff.mp hsorted
    have hfilter := List.of_mem_filter hcand
    rw [hb] at hfilter
    simp [numTruthy, hb0] at hfilter
    exact hfilter
  · haveI : IsTotal (Plan × Option Rat)
        (fun a b => similarKey targetDuration a ≤ similarKey targetDuration b) :=
      ⟨fun a b => le_total _ _⟩
    haveI : IsTrans (Plan × Option Rat)
        (fun a b => similarKey targetDuration a ≤ similarKey targetDuration b) :=
      ⟨fun _ _ _ hab hbc => le_trans hab hbc⟩
    have hs : (similarSorted plans targetDuration budget).Pairwise
        (fun a b => similarKey targetDuration a ≤ similarKey targetDuration b) :=
      List.sorted_insertionSort _ _
    have htake := hs.sublist (List.take_sublist maxResults _)
    rw [findSimilarPlans, List.pairwise_map]
    refine htake.imp_of_mem ?_
    intro a b ha hb hab
    have ha2 := hsnd a (hperm.mem_iff.mp (List.mem_of_mem_take ha))
    have hb2 := hsnd b (hperm.mem_iff.mp (List.mem_of_mem_take hb))
    simpa [similarKey, ha2, hb2] using hab
  · intro a b hsub hkey
    exact List.pair_sublist_insertionSort (le_of_eq hkey) hsub

/-- Witness for C4 at a concrete input: two plans, target 29, budget 700. -/
theorem C4_find_similar_plans_bounds_witness :
    (findSimilarPlans [plan84, planB] 29 (some ((700 : Nat) : Rat)) 3).length ≤ 3 ∧
    jsLeNum (jvToNumber planB.price) ((700 : Nat) : Rat) = true :=
  ⟨(C4_find_similar_plans_bounds [plan84, planB] 29 (some ((700 : Nat) : Rat)) 3).1,
   (C4_find_similar_plans_bounds [plan84, planB] 29 (some ((700 : Nat) : Rat)) 3).2.1
     ((700 : Nat) : Rat) rfl (by decide) planB (by decide)⟩

/-- The operator keywords of `correctOperatorName`'s partial-match scan. -/
def scanKeywords : List Str :=
  ["jio".toList, "geo".toList, "airtel".toList, "artel".toList,
   "vi".toList, "vodafone".toList, "idea".toList]

/-- A successful association-list lookup finds a stored pair. -/
theorem lookupAssoc_mem {α : Type} {l : List (Str × α)} {k : Str} {v : α}
    (h : lookupAssoc l k = some v) : (k, v) ∈ l := by
  induction l with
  | nil => simp [lookupAssoc] at h
  | cons e t ih =>
    obtain ⟨k1, v1⟩ := e
    by_cases hk : k = k1
    · subst hk
      simp [lookupAssoc] at h
      subst h
      exact List.mem_cons_self _ _
    · simp only [lookupAssoc, if_neg hk] at h
      exact List.mem_cons_of_mem _ (ih h)

/-- Reduction of `correctOperatorName` when the direct-correction lookup
misses: the result is the partial-match scan. -/
theorem correctOperatorName_of_lookup_none (t : Str) (hne : t.isEmpty = false)
    (hla : lookupAssoc OPERATOR_CORRECTIONS (lower t) = none) :
    correctOperatorName (some t) =
      (if strContains (lower t) ("jio".toList) || strContains (lower t) ("geo".toList) then
        some ("jio".toList)
      else if strContains (lower t) ("airtel".toList) || strContains (lower t) ("artel".toList)
        then some ("airtel".toList)
      else if strContains (lower t) ("vi".toList) || strContains (lower t) ("vodafone".toList)
          || strContains (lower t) ("idea".toList) then some ("vi".toList)
      else none) := by
  simp only [correctOperatorName, hne, Bool.false_eq_true, if_false, hla]

/-- Reduction of `correctOperatorName` when the direct-correction lookup
hits: the stored canonical name is returned. -/
theorem correctOperatorName_of_lookup_some (t v : Str) (hne : t.isEmpty = false)
    (hla : lookupAssoc OPERATOR_CORRECTIONS (lower t) = some v) :
    correctOperatorName (some t) = some v := by
  simp only [correctOperatorName, hne, Bool.false_eq_true, if_false, hla]

/-- C8 (amended): for the supported misspellings whose canonical operator is
recoverable by the partial-match scan — `geo`, `artel`, `idea` and
`vodafone idea`, but not `vodaphone`, which no scan keyword matches (see the
counterexample) — appending noise that introduces no operator-keyword
occurrence that the misspelling itself lacks leaves the corrected operator
unchanged. -/
theorem C8_correct_operator_noise (m s : Str)
    (hm : m = "geo".toList ∨ m = "artel".toList ∨ m = "idea".toList ∨
      m = "vodafone idea".toList)
    (hkw : ∀ w ∈ scanKeywords, strContains (lower (m ++ s)) w = strContains (lower m) w) :
    correctOperatorName (some (m ++ s)) = correctOperatorName (some m) := by
  rcases hm with rfl | rfl | rfl | rfl
  · -- m = "geo"
    have hjio : strContains (lower ("geo".toList ++ s)) ("jio".toList) = false :=
      (hkw _ (by decide)).trans (by decide)
    have hgeo : strContains (lower ("geo".toList ++ s)) ("geo".toList) = true :=
      (hkw _ (by decide)).trans (by decide)
    have hrhs : correctOperatorName (some ("geo".toList)) = some ("jio".toList) := by decide
    rw [hrhs]
    have hne : (("geo".toList ++ s)).isEmpty = false := rfl
    generalize hg : "geo".toList ++ s = t at *
    cases hla : lookupAssoc OPERATOR_CORRECTIONS (lower t) with
    | some v =>
      have hv := lookupAssoc_mem hla
      simp only [OPERATOR_CORRECTIONS, List.mem_cons, List.not_mem_nil, or_false,
        Prod.mk.injEq] at hv
      rcases hv with ⟨hk, hv⟩ | ⟨hk, hv⟩ | ⟨hk, hv⟩ | ⟨hk, hv⟩ | ⟨hk, hv⟩
      · rw [correctOperatorName_of_lookup_some t v hne hla, hv]
      · rw [hk] at hgeo; exact absurd hgeo (by decide)
      · rw [hk] at hgeo; exact absurd hgeo (by decide)
      · rw [hk] at hgeo; exact absurd hgeo (by decide)
      · rw [hk] at hgeo; exact absurd hgeo (by decide)
    | none =>
      rw [correctOperatorName_of_lookup_none t hne hla, hjio, hgeo]
      rfl
  · -- m = "artel"
    have hjio : strContains (lower ("artel".toList ++ s)) ("jio".toList) = false :=
      (hkw _ (by decide)).trans (by decide)
    have hgeo : strContains (lower ("artel".toList ++ s)) ("geo".toList) = false :=
      (hkw _ (by decide)).trans (by decide)
    have hairtel : strContains (lower ("artel".toList ++ s)) ("airtel".toList) = false :=
      (hkw _ (by decide)).trans (by decide)
    have hartel : strContains (lower ("artel".toList ++ s)) ("artel".toList) = true :=
      (hkw _ (by decide)).trans (by decide)
    have hrhs : correctOperatorName (some ("artel".toList)) = some ("airtel".toList) := by
      decide
    rw [hrhs]
    have hne : (("artel".toList ++ s)).isEmpty = false := rfl
    generalize hg : "artel".toList ++ s = t at *
    cases hla : lookupAssoc OPERATOR_CORRECTIONS (lower t) with
    | some v =>
      have hv := lookupAssoc_mem hla
      simp only [OPERATOR_CORRECTIONS, List.mem_cons, List.not_mem_nil, or_false,
        Prod.mk.injEq] at hv
      rcases hv with ⟨hk, hv⟩ | ⟨hk, hv⟩ | ⟨hk, hv⟩ | ⟨hk, hv⟩ | ⟨hk, hv⟩
      · rw [hk] at hartel; exact absurd hartel (by decide)
      · rw [correctOperatorName_of_lookup_some t v hne hla, hv]
      · rw [hk] at hartel; exact absurd hartel (by decide)
      · rw [hk] at hartel; exact absurd hartel (by decide)
      · rw [hk] at hartel; exact absurd hartel (by decide)
    | none =>
      rw [correctOperatorName_of_lookup_none t hne hla, hjio, hgeo, hairtel, hartel]
      rfl
  · -- m = "idea"
    have hjio : strContains (lower ("idea".toList ++ s)) ("jio".toList) = false :=
      (hkw _ (by decide)).trans (by decide)
    have hgeo : strContains (lower ("idea".toList ++ s)) ("geo".toList) = false :=
      (hkw _ (by decide)).trans (by decide)
    have hairtel : strContains (lower ("idea".toList ++ s)) ("airtel".toList) = false :=
      (hkw _ (by decide)).trans (by decide)
    have hartel : strContains (lower ("idea".toList ++ s)) ("artel".toList) = false :=
      (hkw _ (by decide)).trans (by decide)
    have hvi : strContains (lower ("idea".toList ++ s)) ("vi".toList) = false :=
      (hkw _ (by decide)).trans (by decide)
    have hvodafone : strContains (lower ("idea".toList ++ s)) ("vodafone".toList) = false :=
      (hkw _ (by decide)).trans (by decide)
    have hidea : strContains (lower ("idea".toList ++ s)) ("idea".toList) = true :=
      (hkw _ (by decide)).trans (by decide)
    have hrhs : correctOperatorName (some ("idea".toList)) = some ("vi".toList) := by decide
    rw [hrhs]
    have hne : (("idea".toList ++ s)).isEmpty = false := rfl
    generalize hg : "idea".toList ++ s = t at *
    cases hla : lookupAssoc OPERATOR_CORRECTIONS (lower t) with
    | some v =>
      have hv := lookupAssoc_mem hla
      simp only [OPERATOR_CORRECTIONS, List.mem_cons, List.not_mem_nil, or_false,
        Prod.mk.injEq] at hv
      rcases hv with ⟨hk, hv⟩ | ⟨hk, hv⟩ | ⟨hk, hv⟩ | ⟨hk, hv⟩ | ⟨hk, hv⟩
      · rw [hk] at hidea; exact absurd hidea (by decide)
      · rw [hk] at hidea; exact absurd hidea (by decide)
      · rw [hk] at hvodafone; exact absurd hvodafone (by decide)
      · rw [hk] at hidea; exact absurd hidea (by decide)
      · rw [correctOperatorName_of_lookup_some t v hne hla, hv]
    | none =>
      rw [correctOperatorName_of_lookup_none t hne hla, hjio, hgeo, hairtel, hartel, hvi,
        hvodafone, hidea]
      rfl
  · -- m = "vodafone idea"
    have hjio : strContains (lower ("vodafone idea".toList ++ s)) ("jio".toList) = false :=
      (hkw _ (by decide)).trans (by decide)
    have hgeo : strContains (lower ("vodafone idea".toList ++ s)) ("geo".toList) = false :=
      (hkw _ (by decide)).trans (by decide)
    have hairtel : strContains (lower ("vodafone idea".toList ++ s)) ("airtel".toList) = false :=
      (hkw _ (by decide)).trans (by decide)
    have hartel : strContains (lower ("vodafone idea".toList ++ s)) ("artel".toList) = false :=
      (hkw _ (by decide)).trans (by decide)
    have hvi : strContains (lower ("vodafone idea".toList ++ s)) ("vi".toList) = false :=
      (hkw _ (by decide)).trans (by decide)
    have hvodafone : strContains (lower ("vodafone idea".toList ++ s)) ("vodafone".toList)
        = true :=
      (hkw _ (by decide)).trans (by decide)
    have hrhs : correctOperatorName (some ("vodafone idea".toList)) = some ("vi".toList) := by
      decide
    rw [hrhs]
    have hne : (("vodafone idea".toList ++ s)).isEmpty = false := rfl
    generalize hg : "vodafone idea".toList ++ s = t at *
    cases hla : lookupAssoc OPERATOR_CORRECTIONS (lower t) with
    | some v =>
      have hv := lookupAssoc_mem hla
      simp only [OPERATOR_CORRECTIONS, List.mem_cons, List.not_mem_nil, or_false,
        Prod.mk.injEq] at hv
      rcases hv with ⟨hk, hv⟩ | ⟨hk, hv⟩ | ⟨hk, hv⟩ | ⟨hk, hv⟩ | ⟨hk, hv⟩
      · rw [hk] at hvodafone; exact absurd hvodafone (by decide)
      · rw [hk] at hvodafone; exact absurd hvodafone (by decide)
      · rw [correctOperatorName_of_lookup_some t v hne hla, hv]
      · rw [hk] at hvodafone; exact absurd hvodafone (by decide)
      · rw [hk] at hvodafone; exact absurd hvodafone (by decide)
    | none =>
      rw [correctOperatorName_of_lookup_none t hne hla, hjio, hgeo, hairtel, hartel, hvi,
        hvodafone]
      rfl

/-- Witness for C8: `geo` with the noise ` plans` still corrects to `jio`. -/
theorem C8_correct_operator_noise_witness :
    correctOperatorName (some ("geo".toList ++ " plans".toList)) =
      correctOperatorName (some ("geo".toList)) :=
  C8_correct_operator_noise ("geo".toList) (" plans".toList) (Or.inl rfl) (by decide)

end PlanGenie
